import Mathlib

/-!
Verification of the voice-activity segmentation client in src/main.py
(whisper-client).  The audio-processing loop of record_until_silence is
embedded as a step function on an explicit loop state, audio blocks are
lists of rational samples (exact arithmetic in place of float32), and the
HTTP upload of send_audio_to_server is embedded as a function over an
abstract outcome of the single POST request.
-/

namespace WhisperClient

/-- Audio block: the samples of one fixed-duration chunk, modelled as
rationals in place of float32. -/
abbrev Block := List ℚ

/-- Mean of the squared samples of a chunk, 0 for an empty chunk.  This is
the square of the value computed by calculate_rms in src/main.py
(np.mean of the squares before np.sqrt), kept rational so that it stays
computable. -/
def rms_sq (chunk : Block) : ℚ :=
  if chunk = [] then 0 else (chunk.map (fun x => x ^ 2)).sum / (chunk.length : ℚ)

/-- Root mean square of a chunk exactly as calculate_rms in src/main.py
computes it: 0 for an empty chunk, otherwise the square root of the mean
of the squared samples. -/
noncomputable def calculate_rms (chunk : Block) : ℝ :=
  if chunk = [] then 0 else Real.sqrt ((rms_sq chunk : ℚ) : ℝ)

/-- Decidable form of the silence test of src/main.py line 61
(rms < threshold): for a nonnegative mean square m, sqrt m < t holds iff
0 < t and m < t ^ 2.  The equivalence with calculate_rms is proved in
silent_iff_rms_below_threshold below. -/
def is_silent (chunk : Block) (threshold : ℚ) : Bool :=
  decide (0 < threshold ∧ rms_sq chunk < threshold ^ 2)

/-- Configuration of the recording loop, in blocks, as computed at
src/main.py lines 44-46 from durations in seconds. -/
structure Config where
  threshold : ℚ
  silence_blocks_needed : ℕ
  pre_buffer_blocks : ℕ
  post_buffer_blocks : ℕ
deriving DecidableEq

/-- Mutable state of the while loop of record_until_silence
(src/main.py lines 48-51). -/
structure LoopState where
  recorded_blocks : List Block
  silent_blocks_count : ℕ
  recording_started : Bool
  temp_buffer : List Block
deriving DecidableEq

/-- Initial loop state (src/main.py lines 48-51). -/
def initState : LoopState := ⟨[], 0, false, []⟩

/-- Pre-speech buffer update of src/main.py lines 64-66: append the block,
then pop the oldest entry when the capacity is exceeded. -/
def pushPre (cap : ℕ) (t : List Block) (b : Block) : List Block :=
  if cap < (t ++ [b]).length then (t ++ [b]).tail else t ++ [b]

/-- Outcome of one iteration of the while loop body. -/
inductive StepOut where
  | next (s : LoopState)
  | stop (s : LoopState)
deriving DecidableEq

/-- One iteration of the while loop body of record_until_silence
(src/main.py lines 57-82), for one dequeued block.  In the listening
branch the block is first pushed into temp_buffer (with FIFO eviction) and,
when it is not silent, recorded_blocks is seeded with the whole temp_buffer
followed by the block again; in the recording branch the block is appended
and the silence counter updated, stopping once it reaches
silence_blocks_needed. -/
def processBlock (cfg : Config) (s : LoopState) (b : Block) : StepOut :=
  if s.recording_started = false then
    if is_silent b cfg.threshold = true then
      .next { s with temp_buffer := pushPre cfg.pre_buffer_blocks s.temp_buffer b }
    else
      .next { recorded_blocks :=
                s.recorded_blocks ++ pushPre cfg.pre_buffer_blocks s.temp_buffer b ++ [b],
              silent_blocks_count := 0,
              recording_started := true,
              temp_buffer := pushPre cfg.pre_buffer_blocks s.temp_buffer b }
  else
    if is_silent b cfg.threshold = true then
      if cfg.silence_blocks_needed ≤ s.silent_blocks_count + 1 then
        .stop { s with recorded_blocks := s.recorded_blocks ++ [b],
                       silent_blocks_count := s.silent_blocks_count + 1 }
      else
        .next { s with recorded_blocks := s.recorded_blocks ++ [b],
                       silent_blocks_count := s.silent_blocks_count + 1 }
    else
      .next { s with recorded_blocks := s.recorded_blocks ++ [b],
                     silent_blocks_count := 0 }

/-- Result of running the while loop on a finite stream of blocks:
either the loop broke out (silence stop) with the remaining unread blocks,
or it consumed the whole stream and is still waiting on audio_queue.get(). -/
inductive RunOut where
  | stopped (s : LoopState) (rest : List Block)
  | exhausted (s : LoopState)
deriving DecidableEq

/-- The while loop of record_until_silence applied to a finite prefix of
the incoming block stream. -/
def runLoop (cfg : Config) : LoopState → List Block → RunOut
  | s, [] => .exhausted s
  | s, b :: bs =>
    match processBlock cfg s b with
    | .next s2 => runLoop cfg s2 bs
    | .stop s2 => .stopped s2 bs

/-- Python list slicing l[:k] for an integer k: the first k elements when
0 ≤ k, all but the last -k elements when k < 0 (clamped at the ends). -/
def pyTake (l : List Block) (k : ℤ) : List Block :=
  if 0 ≤ k then l.take k.toNat else l.take ((l.length : ℤ) + k).toNat

/-- Number of trailing blocks dropped at the end of recording:
max(0, silent_blocks_count - post_buffer_blocks), src/main.py line 89. -/
def trimCount (cfg : Config) (s : LoopState) : ℤ :=
  max 0 ((s.silent_blocks_count : ℤ) - (cfg.post_buffer_blocks : ℤ))

/-- Post-loop tail of record_until_silence (src/main.py lines 84-90):
None when nothing was recorded, otherwise the recorded blocks with the
excess trailing silence sliced off. -/
def finishRecording (cfg : Config) (s : LoopState) : Option (List Block) :=
  if s.recorded_blocks = [] then none
  else some (pyTake s.recorded_blocks
    ((s.recorded_blocks.length : ℤ) - trimCount cfg s))

/-- Overall outcome of record_until_silence on a finite stream prefix. -/
inductive RecordOut where
  | finished (kept : List Block)
  | noSpeech
  | stillWaiting (s : LoopState)
deriving DecidableEq

/-- record_until_silence (src/main.py lines 37-95) on a finite prefix of
the block stream.  stillWaiting means the loop has not exited: in the real
program it blocks on audio_queue.get() for the next block. -/
def record_until_silence (cfg : Config) (blocks : List Block) : RecordOut :=
  match runLoop cfg initState blocks with
  | .exhausted s => .stillWaiting s
  | .stopped s _ =>
    match finishRecording cfg s with
    | none => .noSpeech
    | some kept => .finished kept

/-- Python int() applied to an exact rational: truncation toward zero. -/
def pyInt (q : ℚ) : ℤ := if 0 ≤ q then ⌊q⌋ else ⌈q⌉

/-- Block duration hard-coded at src/main.py line 42. -/
def block_duration : ℚ := 1 / 10

/-- silence_blocks_needed = int(silence_sec / block_duration),
src/main.py line 44, with the division taken exactly. -/
def silence_blocks_of (silence_sec : ℚ) : ℤ :=
  pyInt (silence_sec / block_duration)

/-- pre_buffer_blocks = int(pre_buffer_sec / block_duration),
src/main.py line 45, with the division taken exactly. -/
def pre_blocks_of (pre_buffer_sec : ℚ) : ℤ :=
  pyInt (pre_buffer_sec / block_duration)

/-- Conversion of one float sample to 16-bit PCM as performed at
src/main.py line 93: multiply by 32767 and cast with astype(np.int16),
which truncates toward zero (modelled for values whose scaled magnitude
fits in the int16 range; outside it the numpy cast is undefined). -/
def float_to_int16 (x : ℚ) : ℤ := pyInt (x * 32767)

/-- Conversion formula stated by the spec (named from the spec, for
comparison with float_to_int16): round(sample * 32767) clipped to the
int16 range. -/
def spec_round_clip_int16 (x : ℚ) : ℤ :=
  max (-32768) (min 32767 (round (x * 32767)))

/-- Parse status of the response body in send_audio_to_server
(src/main.py lines 125-133): not valid JSON, valid JSON without a usable
string field named text, or valid JSON with one. -/
inductive JsonBody where
  | invalid
  | withoutText
  | withText
deriving DecidableEq

/-- Abstract outcome of the single requests.post call at src/main.py
line 120: one of the three caught exception classes, or a response with a
status code and a body. -/
inductive PostOutcome where
  | connError
  | timedOut
  | otherError
  | response (status : ℕ) (body : JsonBody)
deriving DecidableEq

/-- Result of send_audio_to_server: success carries the body parse status
(it only affects what is printed); the three failure constructors are the
three distinct except branches of src/main.py lines 135-146, all of which
return False. -/
inductive SendResult where
  | success (body : JsonBody)
  | connFailure
  | timeoutFailure
  | requestFailure
deriving DecidableEq

/-- Condition under which response.raise_for_status() at src/main.py
line 122 raises: an HTTP status in the 4xx or 5xx range. -/
def raise_for_status_raises (status : ℕ) : Bool :=
  decide (400 ≤ status ∧ status < 600)

/-- send_audio_to_server (src/main.py lines 101-148) over the abstract
outcome of its one POST request.  ConnectionError, Timeout and the
remaining RequestExceptions map to their distinct except branches; for a
received response, raise_for_status raises (caught by the generic
RequestException branch) exactly on 4xx/5xx, and otherwise the function
returns True regardless of whether the body parses as JSON. -/
def send_audio_to_server : PostOutcome → SendResult
  | .connError => .connFailure
  | .timedOut => .timeoutFailure
  | .otherError => .requestFailure
  | .response status body =>
    if raise_for_status_raises status = true then .requestFailure
    else .success body

/-- Boolean return value of send_audio_to_server: True only on success. -/
def returnsTrue : SendResult → Bool
  | .success _ => true
  | _ => false

/-- Property that the last silent_blocks_count recorded blocks are all
classified silent (the current trailing silence run). -/
def silentSuffix (cfg : Config) (s : LoopState) : Prop :=
  ∀ b ∈ s.recorded_blocks.drop (s.recorded_blocks.length - s.silent_blocks_count),
    is_silent b cfg.threshold = true

/-- Loop invariant: once recording has started, the recording is strictly
longer than the current silence run and that run is a silent suffix. -/
def Inv (cfg : Config) (s : LoopState) : Prop :=
  s.recording_started = true →
    s.silent_blocks_count + 1 ≤ s.recorded_blocks.length ∧ silentSuffix cfg s

/-- Counting invariant: while the loop keeps running in the recording
state, the silence counter stays strictly below the stop threshold. -/
def InvCnt (cfg : Config) (s : LoopState) : Prop :=
  s.recording_started = true →
    s.silent_blocks_count < cfg.silence_blocks_needed

/-- C6: for every block and threshold, the block is classified Silent iff
its RMS is strictly below the threshold; in particular a block whose RMS
equals the threshold is classified Active. -/
theorem silent_iff_rms_below_threshold (chunk : Block) (threshold : ℚ) :
    is_silent chunk threshold = true ↔ calculate_rms chunk < (threshold : ℝ) := by
  rcases eq_or_ne chunk [] with hc | hc
  · subst hc
    have h0 : calculate_rms [] = 0 := by simp [calculate_rms]
    have h1 : rms_sq ([] : Block) = 0 := by simp [rms_sq]
    rw [h0]
    unfold is_silent
    rw [h1]
    simp only [decide_eq_true_eq]
    constructor
    · rintro ⟨ht, -⟩
      exact_mod_cast ht
    · intro ht
      have ht' : 0 < threshold := by exact_mod_cast ht
      exact ⟨ht', by positivity⟩
  · have h0 : calculate_rms chunk = Real.sqrt ((rms_sq chunk : ℚ) : ℝ) := by
      simp [calculate_rms, hc]
    rw [h0]
    unfold is_silent
    simp only [decide_eq_true_eq]
    constructor
    · rintro ⟨ht, hm⟩
      have ht' : (0 : ℝ) < (threshold : ℝ) := by exact_mod_cast ht
      refine (Real.sqrt_lt' ht').mpr ?_
      exact_mod_cast hm
    · intro h
      have ht' : (0 : ℝ) < (threshold : ℝ) :=
        lt_of_le_of_lt (Real.sqrt_nonneg _) h
      have hm := (Real.sqrt_lt' ht').mp h
      exact ⟨by exact_mod_cast ht', by exact_mod_cast hm⟩

/-- C2 counterexample: the code computes silence_blocks_needed with int()
(truncation toward zero), not round(); at silence_sec = 1.46 the exact
quotient is 14.6, which the code truncates to 14 while the claimed formula
rounds to 15. -/
theorem silence_blocks_not_round :
    silence_blocks_of (146/100) ≠ round ((146/100 : ℚ) / block_duration) := by
  have h1 : silence_blocks_of (146/100) = 14 := by
    norm_num [silence_blocks_of, pyInt, block_duration, Int.floor_eq_iff]
  have h2 : round ((146/100 : ℚ) / block_duration) = 15 := by
    norm_num [block_duration, round_eq, Int.floor_eq_iff]
  rw [h1, h2]
  decide

/-- C2 amended: both block counts are computed with Python int(), i.e.
truncation toward zero (the floor for nonnegative durations), of the exact
quotient duration / block_duration; with the defaults this gives 15 silent
blocks to stop (silence_sec = 1.5) and pre-speech capacity 3
(pre_buffer_sec = 0.3). -/
theorem silence_blocks_truncated (silence_sec : ℚ) (hs : 0 ≤ silence_sec) :
    silence_blocks_of silence_sec = ⌊silence_sec / block_duration⌋ ∧
    silence_blocks_of (3/2) = 15 ∧
    pre_blocks_of (3/10) = 3 := by
  refine ⟨?_, ?_, ?_⟩
  · unfold silence_blocks_of pyInt
    rw [if_pos]
    exact div_nonneg hs (by norm_num [block_duration])
  · norm_num [silence_blocks_of, pyInt, block_duration, Int.floor_eq_iff]
  · norm_num [pre_blocks_of, pyInt, block_duration, Int.floor_eq_iff]

/-- Witness for silence_blocks_truncated at silence_sec = 2. -/
theorem silence_blocks_truncated_witness :
    (0 : ℚ) ≤ 2 ∧
    (silence_blocks_of 2 = ⌊(2 : ℚ) / block_duration⌋ ∧
      silence_blocks_of (3/2) = 15 ∧
      pre_blocks_of (3/10) = 3) :=
  ⟨by norm_num, silence_blocks_truncated 2 (by norm_num)⟩

/-- C7 counterexample: at sample 0.5 the code emits
trunc(0.5 * 32767) = 16383 via astype(np.int16), while the claimed formula
round(0.5 * 32767) clipped to int16 gives 16384. -/
theorem int16_not_round_clip :
    float_to_int16 (1/2) = 16383 ∧
    spec_round_clip_int16 (1/2) = 16384 ∧
    float_to_int16 (1/2) ≠ spec_round_clip_int16 (1/2) := by
  have h1 : float_to_int16 (1/2) = 16383 := by
    norm_num [float_to_int16, pyInt, Int.floor_eq_iff]
  have h2 : spec_round_clip_int16 (1/2) = 16384 := by
    norm_num [spec_round_clip_int16, round_eq, Int.floor_eq_iff]
  exact ⟨h1, h2, by rw [h1, h2]; decide⟩

/-- C7 amended: for samples in [-1, 1] (scaled magnitude within the int16
range) the emitted value is sample * 32767 truncated toward zero: it lies
in the int16 range and differs from the exact scaled value by strictly
less than one; the code performs no rounding and no clipping. -/
theorem int16_truncation_bounds (x : ℚ) (h1 : -1 ≤ x) (h2 : x ≤ 1) :
    -32768 ≤ float_to_int16 x ∧ float_to_int16 x ≤ 32767 ∧
    |(float_to_int16 x : ℚ) - x * 32767| < 1 := by
  unfold float_to_int16 pyInt
  have hq1 : -32767 ≤ x * 32767 := by nlinarith
  have hq2 : x * 32767 ≤ 32767 := by nlinarith
  by_cases h : 0 ≤ x * 32767
  · rw [if_pos h]
    have hf1 : ((⌊x * 32767⌋ : ℤ) : ℚ) ≤ x * 32767 := Int.floor_le _
    have hf2 : x * 32767 - 1 < ((⌊x * 32767⌋ : ℤ) : ℚ) := Int.sub_one_lt_floor _
    have hge : (0 : ℤ) ≤ ⌊x * 32767⌋ := Int.floor_nonneg.mpr h
    have hle : ⌊x * 32767⌋ ≤ 32767 := by
      have : ((⌊x * 32767⌋ : ℤ) : ℚ) ≤ 32767 := le_trans hf1 hq2
      exact_mod_cast this
    refine ⟨by omega, hle, ?_⟩
    rw [abs_lt]
    constructor <;> linarith
  · rw [if_neg h]
    push_neg at h
    have hf1 : x * 32767 ≤ ((⌈x * 32767⌉ : ℤ) : ℚ) := Int.le_ceil _
    have hf2 : ((⌈x * 32767⌉ : ℤ) : ℚ) < x * 32767 + 1 := Int.ceil_lt_add_one _
    have hge : (-32767 : ℤ) ≤ ⌈x * 32767⌉ := by
      have : (-32767 : ℚ) ≤ ((⌈x * 32767⌉ : ℤ) : ℚ) := le_trans hq1 hf1
      exact_mod_cast this
    have hle : ((⌈x * 32767⌉ : ℤ) : ℚ) ≤ 0 := by
      have := Int.ceil_le.mpr (le_of_lt h)
      calc ((⌈x * 32767⌉ : ℤ) : ℚ) ≤ ((0 : ℤ) : ℚ) := by exact_mod_cast this
        _ = 0 := by norm_num
    refine ⟨by omega, ?_, ?_⟩
    · have : ⌈x * 32767⌉ ≤ 0 := by exact_mod_cast hle
      omega
    · rw [abs_lt]
      constructor <;> linarith

/-- Witness for int16_truncation_bounds at sample 0.5. -/
theorem int16_truncation_bounds_witness :
    (-1 : ℚ) ≤ 1/2 ∧ (1/2 : ℚ) ≤ 1 ∧
    (-32768 ≤ float_to_int16 (1/2) ∧ float_to_int16 (1/2) ≤ 32767 ∧
      |(float_to_int16 (1/2) : ℚ) - (1/2) * 32767| < 1) :=
  ⟨by norm_num, by norm_num, int16_truncation_bounds (1/2) (by norm_num) (by norm_num)⟩

/-- C9 counterexample: a received response with status 304 (not 2xx) does
not trigger raise_for_status, so the upload still reports success, against
the claimed success-iff-2xx. -/
theorem upload_reports_success_on_304 :
    returnsTrue (send_audio_to_server (.response 304 .invalid)) = true ∧
    ¬ (200 ≤ 304 ∧ 304 < 300) := by
  decide

/-- C9 amended: the upload reports success iff a response was received
whose status is outside the 4xx/5xx range raise_for_status raises on (so
1xx/3xx responses also count as success, not only 2xx); connection errors,
timeouts and remaining request errors map to three distinct failure
branches of the single, unretried request; and a 2xx response whose body is
not valid JSON is still reported as success. -/
theorem upload_success_iff_no_error_status (status : ℕ) (body : JsonBody) :
    (returnsTrue (send_audio_to_server (.response status body)) = true ↔
      (status < 400 ∨ 600 ≤ status)) ∧
    send_audio_to_server .connError = .connFailure ∧
    send_audio_to_server .timedOut = .timeoutFailure ∧
    send_audio_to_server .otherError = .requestFailure ∧
    (200 ≤ status → status < 300 →
      send_audio_to_server (.response status body) = .success body) := by
  refine ⟨?_, rfl, rfl, rfl, ?_⟩
  · have hres : send_audio_to_server (.response status body) =
        if 400 ≤ status ∧ status < 600 then .requestFailure else .success body := by
      by_cases h : 400 ≤ status ∧ status < 600
      · rw [if_pos h]
        simp [send_audio_to_server, raise_for_status_raises, h]
      · rw [if_neg h]
        simp [send_audio_to_server, raise_for_status_raises, h]
    by_cases h : 400 ≤ status ∧ status < 600
    · rw [hres, if_pos h]
      constructor
      · intro hfalse
        exact absurd hfalse (by decide)
      · intro hdis
        exact absurd hdis (by omega)
    · rw [hres, if_neg h]
      constructor
      · intro _
        omega
      · intro _
        rfl
  · intro ha hb
    have h : ¬ (400 ≤ status ∧ status < 600) := by omega
    simp [send_audio_to_server, raise_for_status_raises, h]

/-- Witness for upload_success_iff_no_error_status at a 2xx status with an
invalid JSON body. -/
theorem upload_success_iff_witness :
    200 ≤ 200 ∧ 200 < 300 ∧
    send_audio_to_server (.response 200 .invalid) = .success .invalid :=
  ⟨by decide, by decide,
    (upload_success_iff_no_error_status 200 .invalid).2.2.2.2 (by decide) (by decide)⟩

/-- Closed form of the pre-speech buffer update: when the buffer is within
capacity, pushing drops at most the single oldest element. -/
theorem pushPre_eq (cap : ℕ) (t : List Block) (b : Block) (h : t.length ≤ cap) :
    pushPre cap t b = (t ++ [b]).drop (t.length + 1 - cap) := by
  unfold pushPre
  by_cases hc : cap < (t ++ [b]).length
  · rw [if_pos hc, ← List.drop_one]
    have hlen : (t ++ [b]).length = t.length + 1 := by simp
    rw [hlen] at hc
    have he : t.length + 1 - cap = 1 := by omega
    rw [he]
  · rw [if_neg hc]
    have hlen : (t ++ [b]).length = t.length + 1 := by simp
    rw [hlen] at hc
    have he : t.length + 1 - cap = 0 := by omega
    rw [he, List.drop_zero]

/-- The pre-speech buffer update preserves the capacity bound. -/
theorem pushPre_length_le (cap : ℕ) (t : List Block) (b : Block) (h : t.length ≤ cap) :
    (pushPre cap t b).length ≤ cap := by
  rw [pushPre_eq cap t b h, List.length_drop]
  simp only [List.length_append, List.length_cons, List.length_nil]
  omega

/-- Running the loop on an all-silent stream from a listening state: the
loop never breaks, recording never starts, and the pre-speech buffer ends
as the newest at-most-capacity blocks of buffer-plus-stream. -/
theorem runLoop_all_silent (cfg : Config) :
    ∀ (xs : List Block) (t r : List Block) (c : ℕ),
      t.length ≤ cfg.pre_buffer_blocks →
      (∀ b ∈ xs, is_silent b cfg.threshold = true) →
      runLoop cfg ⟨r, c, false, t⟩ xs =
        .exhausted ⟨r, c, false,
          (t ++ xs).drop (t.length + xs.length - cfg.pre_buffer_blocks)⟩ := by
  intro xs
  induction xs with
  | nil =>
    intro t r c ht _
    have h0 : (t ++ ([] : List Block)).drop
        (t.length + ([] : List Block).length - cfg.pre_buffer_blocks) = t := by
      rw [List.append_nil]
      have he : t.length + ([] : List Block).length - cfg.pre_buffer_blocks = 0 := by
        simp only [List.length_nil, Nat.add_zero]
        omega
      rw [he, List.drop_zero]
    simp only [runLoop, h0]
  | cons b bs ih =>
    intro t r c ht hs
    have hb : is_silent b cfg.threshold = true := hs b (List.mem_cons_self b bs)
    have hstep : runLoop cfg ⟨r, c, false, t⟩ (b :: bs) =
        runLoop cfg ⟨r, c, false, pushPre cfg.pre_buffer_blocks t b⟩ bs := by
      simp [runLoop, processBlock, hb]
    rw [hstep,
      ih (pushPre cfg.pre_buffer_blocks t b) r c (pushPre_length_le _ _ _ ht)
        (fun x hx => hs x (List.mem_cons_of_mem b hx))]
    have htemp : (pushPre cfg.pre_buffer_blocks t b ++ bs).drop
          ((pushPre cfg.pre_buffer_blocks t b).length + bs.length - cfg.pre_buffer_blocks)
        = (t ++ b :: bs).drop (t.length + (b :: bs).length - cfg.pre_buffer_blocks) := by
      rw [pushPre_eq _ _ _ ht]
      have hd : t.length + 1 - cfg.pre_buffer_blocks ≤ (t ++ [b]).length := by
        simp only [List.length_append, List.length_cons, List.length_nil]
        omega
      rw [← List.drop_append_of_le_length hd, List.drop_drop, List.length_drop]
      have hassoc : t ++ [b] ++ bs = t ++ b :: bs := by
        rw [List.append_assoc, List.singleton_append]
      rw [hassoc]
      congr 1
      simp only [List.length_append, List.length_cons, List.length_nil]
      omega
    rw [htemp]

/-- C5: the claim fails on the code.  On a stream with no Active block the
loop never breaks and record_until_silence never reaches any outcome: there
is no cancellation path, the no-speech branch returning None at src/main.py
line 86 is unreachable from the loop, and the real program keeps blocking
on audio_queue.get(). -/
theorem no_speech_never_terminates (cfg : Config) (blocks : List Block)
    (hs : ∀ b ∈ blocks, is_silent b cfg.threshold = true) :
    ∃ s, runLoop cfg initState blocks = .exhausted s ∧
      s.recording_started = false ∧
      record_until_silence cfg blocks = .stillWaiting s := by
  have h := runLoop_all_silent cfg blocks [] [] 0 (by simp) hs
  exact ⟨_, h, rfl, by simp only [record_until_silence, initState, h]⟩

/-- Witness for no_speech_never_terminates on two silent blocks. -/
theorem no_speech_never_terminates_witness :
    (∀ b ∈ ([[0], [0]] : List Block), is_silent b (⟨1/100, 15, 3, 5⟩ : Config).threshold
      = true) ∧
    ∃ s, runLoop ⟨1/100, 15, 3, 5⟩ initState [[0], [0]] = .exhausted s ∧
      s.recording_started = false ∧
      record_until_silence ⟨1/100, 15, 3, 5⟩ [[0], [0]] = .stillWaiting s :=
  ⟨by norm_num [List.forall_mem_cons, is_silent, rms_sq],
    no_speech_never_terminates ⟨1/100, 15, 3, 5⟩ [[0], [0]]
      (by norm_num [List.forall_mem_cons, is_silent, rms_sq])⟩

/-- C8: on any all-silent stream (the engine stays in Listening) the
pre-speech buffer ends as exactly the stream minus its oldest
length-minus-capacity blocks, in arrival order, and never exceeds the
capacity; applied to every prefix of the stream this bounds the buffer
after each processed block. -/
theorem pre_buffer_capacity (cfg : Config) (xs : List Block)
    (hs : ∀ b ∈ xs, is_silent b cfg.threshold = true) :
    ∃ s, runLoop cfg initState xs = .exhausted s ∧
      s.temp_buffer = xs.drop (xs.length - cfg.pre_buffer_blocks) ∧
      s.temp_buffer.length ≤ cfg.pre_buffer_blocks := by
  have h := runLoop_all_silent cfg xs [] [] 0 (by simp) hs
  refine ⟨_, h, by simp, ?_⟩
  simp only [List.nil_append, List.length_nil, Nat.zero_add, List.length_drop]
  omega

/-- Witness for pre_buffer_capacity: capacity 2, three silent blocks. -/
theorem pre_buffer_capacity_witness :
    (∀ b ∈ ([[0], [0], [0]] : List Block),
      is_silent b (⟨1/100, 15, 2, 5⟩ : Config).threshold = true) ∧
    ∃ s, runLoop ⟨1/100, 15, 2, 5⟩ initState [[0], [0], [0]] = .exhausted s ∧
      s.temp_buffer = ([[0], [0], [0]] : List Block).drop
        (([[0], [0], [0]] : List Block).length - 2) ∧
      s.temp_buffer.length ≤ 2 :=
  ⟨by norm_num [List.forall_mem_cons, is_silent, rms_sq],
    pre_buffer_capacity ⟨1/100, 15, 2, 5⟩ [[0], [0], [0]]
      (by norm_num [List.forall_mem_cons, is_silent, rms_sq])⟩

/-- C1: the claim fails on the code.  With pre-speech capacity 1, a silent
block [0] followed by the Active trigger [1] seeds recorded_blocks as
[[1], [1]]: the trigger is pushed into temp_buffer before the silence check
(evicting the real pre-speech block [0]) and then appended again, so the
triggering block occurs twice and the pre-speech audio is lost, where the
claim expects [[0], [1]] with the trigger exactly once. -/
theorem seed_duplicates_trigger_block :
    runLoop ⟨1/100, 15, 1, 5⟩ initState [[0], [1]] =
      .exhausted ⟨[[1], [1]], 0, true, [[1]]⟩ ∧
    ([[1], [1]] : List Block) ≠ [[0], [1]] := by
  constructor
  · norm_num [runLoop, processBlock, is_silent, rms_sq, pushPre, initState]
  · norm_num

/-- Helper: appending one block adds one to the recorded length. -/
theorem length_append_one (r : List Block) (b : Block) :
    (r ++ [b]).length = r.length + 1 := by
  simp

/-- Helper: the trailing silent run stays silent when a silent block is
appended and the counter is incremented. -/
theorem silent_run_extend (cfg : Config) (r : List Block) (c : ℕ) (b : Block)
    (hsil : is_silent b cfg.threshold = true)
    (hsuf : ∀ x ∈ r.drop (r.length - c), is_silent x cfg.threshold = true) :
    ∀ x ∈ (r ++ [b]).drop ((r ++ [b]).length - (c + 1)),
      is_silent x cfg.threshold = true := by
  intro x hx
  rw [length_append_one] at hx
  have he2 : r.length + 1 - (c + 1) = r.length - c := by
    omega
  rw [he2, List.drop_append_of_le_length (Nat.sub_le _ _)] at hx
  rcases List.mem_append.mp hx with hx | hx
  · exact hsuf x hx
  · rw [List.mem_singleton] at hx
    subst hx
    exact hsil

/-- Helper: a silent-run claim with counter zero is vacuous. -/
theorem silent_run_zero (cfg : Config) (r : List Block) :
    ∀ x ∈ r.drop (r.length - 0), is_silent x cfg.threshold = true := by
  intro x hx
  rw [Nat.sub_zero, List.drop_length] at hx
  exact absurd hx (List.not_mem_nil x)

/-- One loop iteration that continues preserves the main invariant. -/
theorem step_next_inv (cfg : Config) (s : LoopState) (b : Block) (s2 : LoopState)
    (hInv : Inv cfg s) (h : processBlock cfg s b = .next s2) : Inv cfg s2 := by
  unfold processBlock at h
  split at h
  case isTrue h1 =>
    split at h
    case isTrue h2 =>
      injection h with h
      subst h
      intro hst
      have hst2 : s.recording_started = true := hst
      simp [h1] at hst2
    case isFalse h2 =>
      injection h with h
      subst h
      intro _
      refine ⟨?_, ?_⟩
      · show 0 + 1 ≤ (s.recorded_blocks
          ++ pushPre cfg.pre_buffer_blocks s.temp_buffer b ++ [b]).length
        rw [length_append_one]
        omega
      · exact silent_run_zero cfg _
  case isFalse h1 =>
    have hst : s.recording_started = true := by
      revert h1
      cases s.recording_started <;> simp
    split at h
    case isTrue h2 =>
      split at h
      case isTrue h3 => exact StepOut.noConfusion h
      case isFalse h3 =>
        injection h with h
        subst h
        obtain ⟨hlen, hsuf⟩ := hInv hst
        intro _
        refine ⟨?_, ?_⟩
        · show s.silent_blocks_count + 1 + 1 ≤ (s.recorded_blocks ++ [b]).length
          rw [length_append_one]
          omega
        · exact silent_run_extend cfg s.recorded_blocks s.silent_blocks_count b h2 hsuf
    case isFalse h2 =>
      injection h with h
      subst h
      intro _
      refine ⟨?_, ?_⟩
      · show 0 + 1 ≤ (s.recorded_blocks ++ [b]).length
        rw [length_append_one]
        omega
      · exact silent_run_zero cfg _

/-- The loop breaks only from the recording state, with the invariant and
silence counter at least the stop threshold on the final state. -/
theorem step_stop_props (cfg : Config) (s : LoopState) (b : Block) (s2 : LoopState)
    (hInv : Inv cfg s) (h : processBlock cfg s b = .stop s2) :
    s2.recording_started = true ∧
    s2.silent_blocks_count + 1 ≤ s2.recorded_blocks.length ∧
    silentSuffix cfg s2 ∧
    cfg.silence_blocks_needed ≤ s2.silent_blocks_count := by
  unfold processBlock at h
  split at h
  case isTrue h1 =>
    split at h
    case isTrue h2 => exact StepOut.noConfusion h
    case isFalse h2 => exact StepOut.noConfusion h
  case isFalse h1 =>
    have hst : s.recording_started = true := by
      revert h1
      cases s.recording_started <;> simp
    split at h
    case isTrue h2 =>
      split at h
      case isTrue h3 =>
        injection h with h
        subst h
        obtain ⟨hlen, hsuf⟩ := hInv hst
        refine ⟨hst, ?_, ?_, h3⟩
        · show s.silent_blocks_count + 1 + 1 ≤ (s.recorded_blocks ++ [b]).length
          rw [length_append_one]
          omega
        · exact silent_run_extend cfg s.recorded_blocks s.silent_blocks_count b h2 hsuf
      case isFalse h3 => exact StepOut.noConfusion h
    case isFalse h2 => exact StepOut.noConfusion h

/-- One loop iteration that continues keeps the silence counter strictly
below the stop threshold (for a positive threshold). -/
theorem step_next_cnt (cfg : Config) (s : LoopState) (b : Block) (s2 : LoopState)
    (hneed : 1 ≤ cfg.silence_blocks_needed)
    (_hc : InvCnt cfg s) (h : processBlock cfg s b = .next s2) : InvCnt cfg s2 := by
  unfold processBlock at h
  split at h
  case isTrue h1 =>
    split at h
    case isTrue h2 =>
      injection h with h
      subst h
      intro hst
      have hst2 : s.recording_started = true := hst
      simp [h1] at hst2
    case isFalse h2 =>
      injection h with h
      subst h
      intro _
      exact hneed
  case isFalse h1 =>
    have hst : s.recording_started = true := by
      revert h1
      cases s.recording_started <;> simp
    split at h
    case isTrue h2 =>
      split at h
      case isTrue h3 => exact StepOut.noConfusion h
      case isFalse h3 =>
        injection h with h
        subst h
        intro _
        show s.silent_blocks_count + 1 < cfg.silence_blocks_needed
        omega
    case isFalse h2 =>
      injection h with h
      subst h
      intro _
      exact hneed

/-- When the loop breaks, the silence counter equals the stop threshold
exactly (it was strictly below it before the final silent block). -/
theorem step_stop_cnt (cfg : Config) (s : LoopState) (b : Block) (s2 : LoopState)
    (hc : InvCnt cfg s) (h : processBlock cfg s b = .stop s2) :
    s2.silent_blocks_count = cfg.silence_blocks_needed := by
  unfold processBlock at h
  split at h
  case isTrue h1 =>
    split at h
    case isTrue h2 => exact StepOut.noConfusion h
    case isFalse h2 => exact StepOut.noConfusion h
  case isFalse h1 =>
    have hst : s.recording_started = true := by
      revert h1
      cases s.recording_started <;> simp
    have hlt := hc hst
    split at h
    case isTrue h2 =>
      split at h
      case isTrue h3 =>
        injection h with h
        subst h
        show s.silent_blocks_count + 1 = cfg.silence_blocks_needed
        omega
      case isFalse h3 => exact StepOut.noConfusion h
    case isFalse h2 => exact StepOut.noConfusion h

/-- Any run that breaks out of the loop from an invariant state does so in
the recording state with a silent suffix at least as long as the final
counter value, which is at least the stop threshold. -/
theorem runLoop_stopped_props (cfg : Config) :
    ∀ (blocks : List Block) (s : LoopState), Inv cfg s →
      ∀ s2 rest, runLoop cfg s blocks = .stopped s2 rest →
        s2.recording_started = true ∧
        s2.silent_blocks_count + 1 ≤ s2.recorded_blocks.length ∧
        silentSuffix cfg s2 ∧
        cfg.silence_blocks_needed ≤ s2.silent_blocks_count := by
  intro blocks
  induction blocks with
  | nil =>
    intro s _ s2 rest h
    exact RunOut.noConfusion h
  | cons b bs ih =>
    intro s hInv s2 rest h
    simp only [runLoop] at h
    rcases hp : processBlock cfg s b with s3 | s3
    · rw [hp] at h
      exact ih s3 (step_next_inv cfg s b s3 hInv hp) s2 rest h
    · rw [hp] at h
      injection h with h hrest
      subst h
      exact step_stop_props cfg s b _ hInv hp

/-- Any run that breaks out of the loop from a state respecting the
counting invariant ends with the counter exactly at the stop threshold. -/
theorem runLoop_stopped_cnt (cfg : Config) (hneed : 1 ≤ cfg.silence_blocks_needed) :
    ∀ (blocks : List Block) (s : LoopState), InvCnt cfg s →
      ∀ s2 rest, runLoop cfg s blocks = .stopped s2 rest →
        s2.silent_blocks_count = cfg.silence_blocks_needed := by
  intro blocks
  induction blocks with
  | nil =>
    intro s _ s2 rest h
    exact RunOut.noConfusion h
  | cons b bs ih =>
    intro s hc s2 rest h
    simp only [runLoop] at h
    rcases hp : processBlock cfg s b with s3 | s3
    · rw [hp] at h
      exact ih s3 (step_next_cnt cfg s b s3 hneed hc hp) s2 rest h
    · rw [hp] at h
      injection h with h hrest
      subst h
      exact step_stop_cnt cfg s b _ hc hp

/-- The initial state satisfies the main invariant. -/
theorem initState_inv (cfg : Config) : Inv cfg initState := by
  intro hst
  simp [initState] at hst

/-- The initial state satisfies the counting invariant. -/
theorem initState_cnt (cfg : Config) : InvCnt cfg initState := by
  intro hst
  simp [initState] at hst

/-- Shape of the post-loop trimming when the recording is strictly longer
than the final silence run: the None branch is not taken and the slice
keeps the first length - max(0, count - post) blocks. -/
theorem finish_spec (cfg : Config) (s : LoopState)
    (hlen : s.silent_blocks_count + 1 ≤ s.recorded_blocks.length) :
    finishRecording cfg s =
      some (s.recorded_blocks.take
        (s.recorded_blocks.length - (s.silent_blocks_count - cfg.post_buffer_blocks))) ∧
    (s.recorded_blocks.take
        (s.recorded_blocks.length - (s.silent_blocks_count - cfg.post_buffer_blocks))).length
      = s.recorded_blocks.length - (s.silent_blocks_count - cfg.post_buffer_blocks) := by
  have hne : s.recorded_blocks ≠ [] := by
    intro he
    rw [he] at hlen
    simp at hlen
  have ht : trimCount cfg s
      = ((s.silent_blocks_count - cfg.post_buffer_blocks : ℕ) : ℤ) := by
    unfold trimCount
    omega
  constructor
  · unfold finishRecording
    rw [if_neg hne, ht]
    unfold pyTake
    rw [if_pos (by omega)]
    have he : ((s.recorded_blocks.length : ℤ)
        - ((s.silent_blocks_count - cfg.post_buffer_blocks : ℕ) : ℤ)).toNat
        = s.recorded_blocks.length - (s.silent_blocks_count - cfg.post_buffer_blocks) := by
      omega
    rw [he]
  · rw [List.length_take]
    omega

/-- C3: every run that enters Recording and stops does so exactly when the
silence counter first reaches silence_blocks_needed (the counter equals it
at the break, having been strictly below on every earlier block), and the
trimmed output holds exactly length-of-recording minus
max(0, silence_blocks_needed - post_buffer_blocks) blocks. -/
theorem recording_stops_at_silence_threshold (cfg : Config) (blocks : List Block)
    (s : LoopState) (rest : List Block)
    (hneed : 1 ≤ cfg.silence_blocks_needed)
    (h : runLoop cfg initState blocks = .stopped s rest) :
    s.silent_blocks_count = cfg.silence_blocks_needed ∧
    ∃ kept, finishRecording cfg s = some kept ∧
      (kept.length : ℤ) =
        (s.recorded_blocks.length : ℤ) -
          max 0 ((cfg.silence_blocks_needed : ℤ) - (cfg.post_buffer_blocks : ℤ)) := by
  obtain ⟨hst, hlen, hsuf, hge⟩ :=
    runLoop_stopped_props cfg blocks initState (initState_inv cfg) s rest h
  have hcnt :=
    runLoop_stopped_cnt cfg hneed blocks initState (initState_cnt cfg) s rest h
  obtain ⟨hfin, hklen⟩ := finish_spec cfg s hlen
  refine ⟨hcnt, _, hfin, ?_⟩
  rw [hklen]
  omega

/-- Witness for recording_stops_at_silence_threshold: threshold 0.01, two
silent blocks to stop, pre and post capacity 1, on the stream
active, silent, silent. -/
theorem recording_stops_witness :
    1 ≤ (⟨1/100, 2, 1, 1⟩ : Config).silence_blocks_needed ∧
    runLoop ⟨1/100, 2, 1, 1⟩ initState [[1], [0], [0]] =
      .stopped ⟨[[1], [1], [0], [0]], 2, true, [[1]]⟩ [] ∧
    (⟨[[1], [1], [0], [0]], 2, true, [[1]]⟩ : LoopState).silent_blocks_count =
      (⟨1/100, 2, 1, 1⟩ : Config).silence_blocks_needed ∧
    ∃ kept, finishRecording ⟨1/100, 2, 1, 1⟩ ⟨[[1], [1], [0], [0]], 2, true, [[1]]⟩
        = some kept ∧
      (kept.length : ℤ) =
        ((⟨[[1], [1], [0], [0]], 2, true, [[1]]⟩ : LoopState).recorded_blocks.length : ℤ) -
          max 0 (((⟨1/100, 2, 1, 1⟩ : Config).silence_blocks_needed : ℤ) -
            ((⟨1/100, 2, 1, 1⟩ : Config).post_buffer_blocks : ℤ)) :=
  ⟨by decide,
    by norm_num [runLoop, processBlock, is_silent, rms_sq, pushPre, initState],
    recording_stops_at_silence_threshold ⟨1/100, 2, 1, 1⟩ [[1], [0], [0]]
      ⟨[[1], [1], [0], [0]], 2, true, [[1]]⟩ [] (by decide)
      (by norm_num [runLoop, processBlock, is_silent, rms_sq, pushPre, initState])⟩

/-- C4: on every run that reaches the trimming step, the computed trim
count is nonnegative and never exceeds the recording length, so the kept
block count lies between 0 and the recording length inclusive (also when
silence_blocks_needed < post_buffer_blocks, where the trim count is 0). -/
theorem trim_count_clamped (cfg : Config) (blocks : List Block)
    (s : LoopState) (rest : List Block)
    (h : runLoop cfg initState blocks = .stopped s rest) :
    0 ≤ trimCount cfg s ∧
    trimCount cfg s ≤ (s.recorded_blocks.length : ℤ) ∧
    ∃ kept, finishRecording cfg s = some kept ∧
      kept.length ≤ s.recorded_blocks.length ∧
      (kept.length : ℤ) = (s.recorded_blocks.length : ℤ) - trimCount cfg s := by
  obtain ⟨hst, hlen, hsuf, hge⟩ :=
    runLoop_stopped_props cfg blocks initState (initState_inv cfg) s rest h
  obtain ⟨hfin, hklen⟩ := finish_spec cfg s hlen
  have ht : trimCount cfg s
      = ((s.silent_blocks_count - cfg.post_buffer_blocks : ℕ) : ℤ) := by
    unfold trimCount
    omega
  refine ⟨le_max_left 0 _, ?_, _, hfin, ?_, ?_⟩
  · rw [ht]
    omega
  · rw [hklen]
    omega
  · rw [hklen, ht]
    omega

/-- Witness for trim_count_clamped on the same concrete stopped run. -/
theorem trim_count_clamped_witness :
    runLoop ⟨1/100, 2, 1, 1⟩ initState [[1], [0], [0]] =
      .stopped ⟨[[1], [1], [0], [0]], 2, true, [[1]]⟩ [] ∧
    0 ≤ trimCount ⟨1/100, 2, 1, 1⟩ ⟨[[1], [1], [0], [0]], 2, true, [[1]]⟩ ∧
    trimCount ⟨1/100, 2, 1, 1⟩ ⟨[[1], [1], [0], [0]], 2, true, [[1]]⟩ ≤
      ((⟨[[1], [1], [0], [0]], 2, true, [[1]]⟩ : LoopState).recorded_blocks.length : ℤ) ∧
    ∃ kept, finishRecording ⟨1/100, 2, 1, 1⟩ ⟨[[1], [1], [0], [0]], 2, true, [[1]]⟩
        = some kept ∧
      kept.length ≤ (⟨[[1], [1], [0], [0]], 2, true, [[1]]⟩ : LoopState).recorded_blocks.length ∧
      (kept.length : ℤ) =
        ((⟨[[1], [1], [0], [0]], 2, true, [[1]]⟩ : LoopState).recorded_blocks.length : ℤ) -
          trimCount ⟨1/100, 2, 1, 1⟩ ⟨[[1], [1], [0], [0]], 2, true, [[1]]⟩ :=
  ⟨by norm_num [runLoop, processBlock, is_silent, rms_sq, pushPre, initState],
    trim_count_clamped ⟨1/100, 2, 1, 1⟩ [[1], [0], [0]]
      ⟨[[1], [1], [0], [0]], 2, true, [[1]]⟩ []
      (by norm_num [runLoop, processBlock, is_silent, rms_sq, pushPre, initState])⟩

/-- C10: whenever the loop exits through its break, recording has started,
the recording is non-empty, the None branch is not taken, the kept output
is a non-empty leading slice, and everything dropped lies inside the final
silence run: at most silent_blocks_count blocks are dropped and every
dropped block is classified silent, so neither the pre-speech blocks nor
the (non-silent) triggering block are ever trimmed. -/
theorem normal_exit_keeps_speech (cfg : Config) (blocks : List Block)
    (s : LoopState) (rest : List Block)
    (h : runLoop cfg initState blocks = .stopped s rest) :
    s.recording_started = true ∧
    s.recorded_blocks ≠ [] ∧
    ∃ kept, finishRecording cfg s = some kept ∧
      kept ≠ [] ∧
      kept = s.recorded_blocks.take kept.length ∧
      s.recorded_blocks.length - kept.length ≤ s.silent_blocks_count ∧
      ∀ x ∈ s.recorded_blocks.drop kept.length, is_silent x cfg.threshold = true := by
  obtain ⟨hst, hlen, hsuf, hge⟩ :=
    runLoop_stopped_props cfg blocks initState (initState_inv cfg) s rest h
  obtain ⟨hfin, hklen⟩ := finish_spec cfg s hlen
  have hne : s.recorded_blocks ≠ [] := by
    intro he
    rw [he] at hlen
    simp at hlen
  refine ⟨hst, hne, _, hfin, ?_, ?_, ?_, ?_⟩
  · intro he
    have h0 := congrArg List.length he
    rw [hklen] at h0
    simp at h0
    omega
  · rw [hklen]
  · rw [hklen]
    omega
  · intro x hx
    rw [hklen] at hx
    have hsub : s.recorded_blocks.drop
          (s.recorded_blocks.length - (s.silent_blocks_count - cfg.post_buffer_blocks))
        = (s.recorded_blocks.drop (s.recorded_blocks.length - s.silent_blocks_count)).drop
            ((s.recorded_blocks.length - (s.silent_blocks_count - cfg.post_buffer_blocks))
              - (s.recorded_blocks.length - s.silent_blocks_count)) := by
      rw [List.drop_drop]
      congr 1
      omega
    rw [hsub] at hx
    exact hsuf x (List.drop_subset _ _ hx)

/-- Witness for normal_exit_keeps_speech on the same concrete stopped run. -/
theorem normal_exit_keeps_speech_witness :
    runLoop ⟨1/100, 2, 1, 1⟩ initState [[1], [0], [0]] =
      .stopped ⟨[[1], [1], [0], [0]], 2, true, [[1]]⟩ [] ∧
    (⟨[[1], [1], [0], [0]], 2, true, [[1]]⟩ : LoopState).recording_started = true ∧
    (⟨[[1], [1], [0], [0]], 2, true, [[1]]⟩ : LoopState).recorded_blocks ≠ [] ∧
    ∃ kept, finishRecording ⟨1/100, 2, 1, 1⟩ ⟨[[1], [1], [0], [0]], 2, true, [[1]]⟩
        = some kept ∧
      kept ≠ [] ∧
      kept = (⟨[[1], [1], [0], [0]], 2, true, [[1]]⟩ : LoopState).recorded_blocks.take
        kept.length ∧
      (⟨[[1], [1], [0], [0]], 2, true, [[1]]⟩ : LoopState).recorded_blocks.length -
          kept.length ≤
        (⟨[[1], [1], [0], [0]], 2, true, [[1]]⟩ : LoopState).silent_blocks_count ∧
      ∀ x ∈ (⟨[[1], [1], [0], [0]], 2, true, [[1]]⟩ : LoopState).recorded_blocks.drop
          kept.length,
        is_silent x (⟨1/100, 2, 1, 1⟩ : Config).threshold = true :=
  ⟨by norm_num [runLoop, processBlock, is_silent, rms_sq, pushPre, initState],
    normal_exit_keeps_speech ⟨1/100, 2, 1, 1⟩ [[1], [0], [0]]
      ⟨[[1], [1], [0], [0]], 2, true, [[1]]⟩ []
      (by norm_num [runLoop, processBlock, is_silent, rms_sq, pushPre, initState])⟩

end WhisperClient
